import Mathlib

/-!
Shallow embedding of `src/log.c` (a minimal logging facade).

The mutable global `static struct { ... } L` is modelled as an explicit
state value threaded through the operations.  Pointers are modelled as
opaque identifiers: a `void *` user-data pointer becomes `UData`
(with a distinguished `stderrp` value for the C `stderr` stream and a
`nullp` value for `NULL`), a `log_LogFn` function pointer becomes
`Option LogFn` (`none` = `NULL`), and a `log_LockFn` pointer becomes
`Option Nat`.  The observable behaviour of one `log_log` call — which
callbacks run, with which event record, whether the clock was queried,
and the lock/unlock bracketing — is returned as a trace of
`TraceEntry` values; the system clock reading that `time(NULL)` would
produce is passed in as the parameter `now`.
-/

namespace LogC

/-- Severity enum, `typedef enum { LOG_TRACE, ..., LOG_FATAL } log_level`. -/
inductive log_level where
  | LOG_TRACE
  | LOG_DEBUG
  | LOG_INFO
  | LOG_WARN
  | LOG_ERROR
  | LOG_FATAL
deriving DecidableEq

/-- Numeric value of the C enum constant. -/
def log_level.toNat : log_level → Nat
  | .LOG_TRACE => 0
  | .LOG_DEBUG => 1
  | .LOG_INFO => 2
  | .LOG_WARN => 3
  | .LOG_ERROR => 4
  | .LOG_FATAL => 5

/-- Opaque model of a `void *` user-data pointer. `stderrp` stands for the
C `stderr` stream passed to the console sink, `filep h` for a `FILE *`
handle, `nullp` for `NULL`. -/
inductive UData where
  | nullp
  | stderrp
  | filep (h : Nat)
  | userp (n : Nat)
deriving DecidableEq

/-- Opaque model of a `log_LogFn` function pointer: the built-in
`file_callback` or an arbitrary caller-supplied callback. -/
inductive LogFn where
  | file_callback
  | userfn (n : Nat)
deriving DecidableEq

/-- One registry slot, `typedef struct { log_LogFn fn; void *udata; log_level level; } Callback`.
`fn = none` models a `NULL` function pointer (an unused slot). -/
structure Callback where
  fn : Option LogFn
  udata : UData
  level : log_level
deriving DecidableEq

/-- C macro `#define MAX_CALLBACKS 32`. -/
def MAX_CALLBACKS : Nat := 32

/-- The global state `static struct { void *udata; log_LockFn lock; log_level level; bool quiet; Callback callbacks[MAX_CALLBACKS]; } L`. -/
structure LogState where
  udata : UData
  lock : Option Nat
  level : log_level
  quiet : Bool
  callbacks : List Callback
deriving DecidableEq

/-- The zero-initialized state of the C static `L`: `NULL` lock and
user data, level `LOG_TRACE` (enum value 0), `quiet = false`, and all
`MAX_CALLBACKS` slots holding a `NULL` function pointer. -/
def log_init : LogState :=
  { udata := .nullp
    lock := none
    level := .LOG_TRACE
    quiet := false
    callbacks := List.replicate MAX_CALLBACKS ⟨none, .nullp, .LOG_TRACE⟩ }

/-- The transient `log_Event` record (the C `va_list ap` field carries the
variadic arguments through unmodified; it has no observable structure here
and is omitted).  `time = none` models the zero-initialized `NULL`
`struct tm *` pointer before the lazy capture. -/
structure log_Event where
  fmt : String
  file : String
  time : Option Nat
  udata : UData
  line : Int
  level : log_level
deriving DecidableEq

/-- One observable step of a dispatch call: a lock-hook invocation
(`L.lock(b, L.udata)`), a system-clock query (`time(NULL)`), the console
sink running (`stdout_callback(&ev)`), or registered callback number
`idx` running (`cb->fn(&ev)`). -/
inductive TraceEntry where
  | lockCall (acquire : Bool) (udata : UData)
  | clockQuery
  | consoleInvoke (ev : log_Event)
  | sinkInvoke (idx : Nat) (fn : LogFn) (ev : log_Event)
deriving DecidableEq

/-- Name table read by `log_level_string`. -/
def level_strings : List String :=
  ["TRACE", "DEBUG", "INFO", "WARN", "ERROR", "FATAL"]

/-- Embedding of `const char *log_level_string(log_level level) { return level_strings[level]; }` -/
def log_level_string (level : log_level) : String :=
  level_strings.getD level.toNat ""

/-- Embedding of `void log_set_lock(log_LockFn fn, void *udata)` -/
def log_set_lock (L : LogState) (fn : Option Nat) (udata : UData) : LogState :=
  { L with lock := fn, udata := udata }

/-- Embedding of `void log_set_level(log_level level)` -/
def log_set_level (L : LogState) (level : log_level) : LogState :=
  { L with level := level }

/-- Embedding of `void log_set_quiet(bool enable)` -/
def log_set_quiet (L : LogState) (enable : Bool) : LogState :=
  { L with quiet := enable }

/-- The scan of `log_add_callback`: walk the slots (at most `fuel` of
them, `fuel = MAX_CALLBACKS` at the call site) looking for the first one
whose `fn` is `NULL`; `some cbs` models `return 0` after storing the new
callback there, `none` models falling off the loop and `return -1`. -/
def insertCallback : Nat → List Callback → Callback → Option (List Callback)
  | 0, _, _ => none
  | _ + 1, [], _ => none
  | fuel + 1, c :: rest, newc =>
    if c.fn = none then some (newc :: rest)
    else (insertCallback fuel rest newc).map (fun l => c :: l)

/-- Embedding of `int log_add_callback(log_LogFn fn, void *udata, log_level level)` -/
def log_add_callback (L : LogState) (fn : Option LogFn) (udata : UData)
    (level : log_level) : Int × LogState :=
  match insertCallback MAX_CALLBACKS L.callbacks ⟨fn, udata, level⟩ with
  | some cbs => (0, { L with callbacks := cbs })
  | none => (-1, L)

/-- Embedding of `int log_add_fp(FILE *fp, log_level level) { return log_add_callback(file_callback, fp, level); }` -/
def log_add_fp (L : LogState) (fp : Nat) (level : log_level) : Int × LogState :=
  log_add_callback L (some .file_callback) (.filep fp) level

/-- Embedding of `static void init_event(log_Event *ev, void *udata)`: captures the
wall-clock time only when `ev->time` is still `NULL`, and rebinds
`ev->udata`.  Returns the updated event and the clock-query trace. -/
def init_event (ev : log_Event) (udata : UData) (now : Nat) :
    log_Event × List TraceEntry :=
  match ev.time with
  | none => ({ ev with time := some now, udata := udata }, [.clockQuery])
  | some _ => ({ ev with udata := udata }, [])

/-- Embedding of `static void lock(void) { if (L.lock) { L.lock(true, L.udata); } }` -/
def lock (L : LogState) : List TraceEntry :=
  match L.lock with
  | none => []
  | some _ => [.lockCall true L.udata]

/-- Embedding of `static void unlock(void) { if (L.lock) { L.lock(false, L.udata); } }` -/
def unlock (L : LogState) : List TraceEntry :=
  match L.lock with
  | none => []
  | some _ => [.lockCall false L.udata]

/-- The registered-callback loop of `log_log`:
`for (int i = 0; i < MAX_CALLBACKS && L.callbacks[i].fn; i++) { ... if (level >= cb->level) { init_event(&ev, cb->udata); cb->fn(&ev); } }`.
`fuel` is the remaining iteration budget (`MAX_CALLBACKS - i`), `idx`
the current slot index; the loop stops at the first `NULL` `fn`. -/
def run_callbacks (fuel : Nat) (cbs : List Callback) (idx : Nat)
    (level : log_level) (ev : log_Event) (now : Nat) :
    List TraceEntry × log_Event :=
  match fuel, cbs with
  | 0, _ => ([], ev)
  | _ + 1, [] => ([], ev)
  | fuel + 1, c :: rest =>
    match c.fn with
    | none => ([], ev)
    | some f =>
      if c.level.toNat ≤ level.toNat then
        let p := init_event ev c.udata now
        let q := run_callbacks fuel rest (idx + 1) level p.1 now
        (p.2 ++ .sinkInvoke idx f p.1 :: q.1, q.2)
      else
        run_callbacks fuel rest (idx + 1) level ev now

/-- Embedding of `void log_log(log_level level, const char *file, int line, const char *fmt, ...)`.
Builds the stack event (designated initializers zero-initialize `time`
and `udata` to `NULL`), brackets with `lock()`/`unlock()`, runs the
console sink when `!L.quiet && level >= L.level`, then the registered
callbacks.  Returns the observable trace and the (unmodified) state. -/
def log_log (L : LogState) (level : log_level) (file : String) (line : Int)
    (fmt : String) (now : Nat) : List TraceEntry × LogState :=
  let ev : log_Event :=
    { fmt := fmt, file := file, time := none, udata := .nullp,
      line := line, level := level }
  let tr0 := lock L
  let p :=
    if L.quiet = false ∧ L.level.toNat ≤ level.toNat then
      let q := init_event ev .stderrp now
      (q.2 ++ [TraceEntry.consoleInvoke q.1], q.1)
    else ([], ev)
  let r := run_callbacks MAX_CALLBACKS L.callbacks 0 level p.2 now
  (tr0 ++ p.1 ++ r.1 ++ unlock L, L)

/-! ### Characterization of one dispatch call -/

/-- The fresh stack event of `log_log` before any sink runs. -/
def baseEvent (level : log_level) (file : String) (line : Int)
    (fmt : String) : log_Event :=
  { fmt := fmt, file := file, time := none, udata := .nullp,
    line := line, level := level }

/-- The event value a sink observes: the timestamp is the already
captured one if any, else the current clock reading, and `udata` is
rebound to the sink's stored context. -/
def sinkEvent (ev : log_Event) (now : Nat) (udata : UData) : log_Event :=
  { ev with time := some (ev.time.getD now), udata := udata }

/-- The registered sinks the callback loop will invoke: slots scanned in
order up to the first `NULL` function pointer (and at most `fuel` of
them), keeping those whose stored level is at most the dispatch level.
Each kept entry records its slot index, function and context. -/
def qualifying (fuel : Nat) (cbs : List Callback) (idx : Nat)
    (level : log_level) : List (Nat × LogFn × UData) :=
  match fuel, cbs with
  | 0, _ => []
  | _ + 1, [] => []
  | fuel + 1, c :: rest =>
    match c.fn with
    | none => []
    | some f =>
      if c.level.toNat ≤ level.toNat then
        (idx, f, c.udata) :: qualifying fuel rest (idx + 1) level
      else
        qualifying fuel rest (idx + 1) level

/-- Closed form of the sink-running part of one `log_log` call (between
the lock and unlock hook invocations). -/
def dispatchBody (L : LogState) (level : log_level) (file : String)
    (line : Int) (fmt : String) (now : Nat) : List TraceEntry :=
  let ev := baseEvent level file line fmt
  let qs := qualifying MAX_CALLBACKS L.callbacks 0 level
  (if L.quiet = false ∧ L.level.toNat ≤ level.toNat then
    [.clockQuery, .consoleInvoke (sinkEvent ev now .stderrp)]
  else []) ++
    (if qs.isEmpty then []
    else
      (if L.quiet = false ∧ L.level.toNat ≤ level.toNat then []
      else [TraceEntry.clockQuery]) ++
        qs.map (fun q => .sinkInvoke q.1 q.2.1 (sinkEvent ev now q.2.2)))

/-- Closed form of the whole trace of one `log_log` call. -/
def dispatchTrace (L : LogState) (level : log_level) (file : String)
    (line : Int) (fmt : String) (now : Nat) : List TraceEntry :=
  lock L ++ dispatchBody L level file line fmt now ++ unlock L

theorem sinkEvent_sinkEvent (ev : log_Event) (now : Nat) (u1 u2 : UData) :
    sinkEvent (sinkEvent ev now u1) now u2 = sinkEvent ev now u2 := by
  simp [sinkEvent]

theorem sinkEvent_time (ev : log_Event) (now : Nat) (u : UData) :
    (sinkEvent ev now u).time = some (ev.time.getD now) := rfl

theorem init_event_eq (ev : log_Event) (udata : UData) (now : Nat) :
    init_event ev udata now =
      (sinkEvent ev now udata,
        if ev.time = none then [TraceEntry.clockQuery] else []) := by
  cases h : ev.time <;> simp [init_event, sinkEvent, h]

theorem run_callbacks_fst (cbs : List Callback) (fuel : Nat) (idx : Nat)
    (level : log_level) (ev : log_Event) (now : Nat) :
    (run_callbacks fuel cbs idx level ev now).1 =
      (let qs := qualifying fuel cbs idx level
      if qs.isEmpty then []
      else
        (if ev.time = none then [TraceEntry.clockQuery] else []) ++
          qs.map (fun q => .sinkInvoke q.1 q.2.1 (sinkEvent ev now q.2.2))) := by
  induction cbs generalizing fuel idx ev with
  | nil => cases fuel <;> simp [run_callbacks, qualifying]
  | cons c rest ih =>
    cases fuel with
    | zero => simp [run_callbacks, qualifying]
    | succ fuel =>
      cases hfn : c.fn with
      | none => simp [run_callbacks, qualifying, hfn]
      | some f =>
        by_cases hlev : c.level.toNat ≤ level.toNat
        · simp only [run_callbacks, qualifying, hfn, if_pos hlev,
            init_event_eq, List.isEmpty_cons]
          rw [ih]
          simp only [sinkEvent_time, Option.some_ne_none, if_neg,
            reduceCtorEq, not_false_eq_true]
          cases hq : qualifying fuel rest (idx + 1) level with
          | nil => simp
          | cons q qs =>
            simp [sinkEvent_sinkEvent]
        · simp only [run_callbacks, qualifying, hfn, if_neg hlev]
          exact ih fuel (idx + 1) ev

theorem log_log_eq (L : LogState) (level : log_level) (file : String)
    (line : Int) (fmt : String) (now : Nat) :
    log_log L level file line fmt now =
      (dispatchTrace L level file line fmt now, L) := by
  unfold log_log dispatchTrace dispatchBody
  by_cases hc : L.quiet = false ∧ L.level.toNat ≤ level.toNat
  · simp only [if_pos hc, init_event_eq, baseEvent, run_callbacks_fst]
    simp only [sinkEvent]
    cases hq : qualifying MAX_CALLBACKS L.callbacks 0 level with
    | nil => simp [hq]
    | cons q qs => simp [hq, sinkEvent_sinkEvent, sinkEvent]
  · simp only [if_neg hc, run_callbacks_fst, baseEvent]
    simp

/-- Entry is a registered-callback invocation. -/
def TraceEntry.isSink : TraceEntry → Bool
  | .sinkInvoke _ _ _ => true
  | _ => false

/-- Entry is a sink invocation (console or registered). -/
def TraceEntry.isInvoke : TraceEntry → Bool
  | .sinkInvoke _ _ _ => true
  | .consoleInvoke _ => true
  | _ => false

/-- Entry is a system-clock query. -/
def TraceEntry.isClock : TraceEntry → Bool
  | .clockQuery => true
  | _ => false

theorem mem_qualifying_sound (cbs : List Callback) (fuel idx : Nat)
    (level : log_level) (p : Nat × LogFn × UData)
    (hp : p ∈ qualifying fuel cbs idx level) :
    ∃ j c, p.1 = idx + j ∧ j < fuel ∧ cbs[j]? = some c ∧
      c.fn = some p.2.1 ∧ p.2.2 = c.udata ∧ c.level.toNat ≤ level.toNat := by
  induction cbs generalizing fuel idx with
  | nil =>
    cases fuel <;> simp [qualifying] at hp
  | cons c rest ih =>
    cases fuel with
    | zero => simp [qualifying] at hp
    | succ fuel =>
      cases hfn : c.fn with
      | none => simp [qualifying, hfn] at hp
      | some f =>
        by_cases hlev : c.level.toNat ≤ level.toNat
        · simp only [qualifying, hfn, if_pos hlev, List.mem_cons] at hp
          rcases hp with hp | hp
          · subst hp
            exact ⟨0, c, by simp, Nat.succ_pos _, by simp, by simp [hfn],
              rfl, hlev⟩
          · obtain ⟨j, c2, hj1, hj2, hj3, hj4, hj5, hj6⟩ := ih fuel (idx + 1) hp
            exact ⟨j + 1, c2, by omega, by omega, by simpa using hj3,
              hj4, hj5, hj6⟩
        · simp only [qualifying, hfn, if_neg hlev] at hp
          obtain ⟨j, c2, hj1, hj2, hj3, hj4, hj5, hj6⟩ := ih fuel (idx + 1) hp
          exact ⟨j + 1, c2, by omega, by omega, by simpa using hj3,
            hj4, hj5, hj6⟩

theorem mem_qualifying_complete (cbs : List Callback) (fuel idx i : Nat)
    (level : log_level) (c : Callback) (f : LogFn)
    (hget : cbs[i]? = some c) (hfn : c.fn = some f)
    (hlev : c.level.toNat ≤ level.toNat) (hi : i < fuel)
    (hpre : ∀ j < i, ∃ cj, cbs[j]? = some cj ∧ cj.fn ≠ none) :
    (idx + i, f, c.udata) ∈ qualifying fuel cbs idx level := by
  induction cbs generalizing fuel idx i with
  | nil => simp at hget
  | cons c0 rest ih =>
    cases fuel with
    | zero => omega
    | succ fuel =>
      cases i with
      | zero =>
        simp only [List.getElem?_cons_zero, Option.some.injEq] at hget
        subst hget
        simp only [qualifying, hfn, if_pos hlev]
        simp
      | succ i =>
        obtain ⟨c0', hc0', hfn0⟩ := hpre 0 (Nat.succ_pos _)
        simp only [List.getElem?_cons_zero, Option.some.injEq] at hc0'
        subst hc0'
        cases hfn0' : c0.fn with
        | none => exact absurd hfn0' hfn0
        | some f0 =>
          have hmem : ((idx + 1) + i, f, c.udata) ∈
              qualifying fuel rest (idx + 1) level := by
            refine ih fuel (idx + 1) i (by simpa using hget) (by omega) ?_
            intro j hj
            obtain ⟨cj, hcj, hcjfn⟩ := hpre (j + 1) (by omega)
            exact ⟨cj, by simpa using hcj, hcjfn⟩
          have harith : idx + (i + 1) = (idx + 1) + i := by omega
          by_cases hlev0 : c0.level.toNat ≤ level.toNat
          · simp only [qualifying, hfn0', if_pos hlev0]
            exact List.mem_cons_of_mem _ (harith ▸ hmem)
          · simp only [qualifying, hfn0', if_neg hlev0]
            exact harith ▸ hmem

theorem qualifying_lb (cbs : List Callback) (fuel idx : Nat)
    (level : log_level) (p : Nat × LogFn × UData)
    (hp : p ∈ qualifying fuel cbs idx level) : idx ≤ p.1 := by
  obtain ⟨j, c, hj1, -⟩ := mem_qualifying_sound cbs fuel idx level p hp
  omega

theorem qualifying_pairwise (cbs : List Callback) (fuel idx : Nat)
    (level : log_level) :
    List.Pairwise (fun a b => a.1 < b.1) (qualifying fuel cbs idx level) := by
  induction cbs generalizing fuel idx with
  | nil => cases fuel <;> simp [qualifying]
  | cons c rest ih =>
    cases fuel with
    | zero => simp [qualifying]
    | succ fuel =>
      cases hfn : c.fn with
      | none => simp [qualifying, hfn]
      | some f =>
        by_cases hlev : c.level.toNat ≤ level.toNat
        · simp only [qualifying, hfn, if_pos hlev]
          refine List.Pairwise.cons ?_ (ih fuel (idx + 1))
          intro b hb
          have := qualifying_lb rest fuel (idx + 1) level b hb
          omega
        · simp only [qualifying, hfn, if_neg hlev]
          exact ih fuel (idx + 1)

theorem filter_isSink_lock (L : LogState) :
    (lock L).filter TraceEntry.isSink = [] := by
  cases h : L.lock <;> simp [lock, h, TraceEntry.isSink]

theorem filter_isSink_unlock (L : LogState) :
    (unlock L).filter TraceEntry.isSink = [] := by
  cases h : L.lock <;> simp [unlock, h, TraceEntry.isSink]

theorem filter_isSink_map (qs : List (Nat × LogFn × UData))
    (g : Nat × LogFn × UData → log_Event) :
    (qs.map (fun q => TraceEntry.sinkInvoke q.1 q.2.1 (g q))).filter
        TraceEntry.isSink =
      qs.map (fun q => TraceEntry.sinkInvoke q.1 q.2.1 (g q)) := by
  refine List.filter_eq_self.mpr ?_
  intro a ha
  obtain ⟨q, -, rfl⟩ := List.mem_map.mp ha
  rfl

/-- The registered-callback invocations of one dispatch call are exactly
the qualifying slots, in slot order, each with the shared event rebound
to its own context. -/
theorem filter_isSink_dispatchTrace (L : LogState) (level : log_level)
    (file : String) (line : Int) (fmt : String) (now : Nat) :
    (dispatchTrace L level file line fmt now).filter TraceEntry.isSink =
      (qualifying MAX_CALLBACKS L.callbacks 0 level).map
        (fun q => .sinkInvoke q.1 q.2.1
          (sinkEvent (baseEvent level file line fmt) now q.2.2)) := by
  unfold dispatchTrace dispatchBody
  simp only [List.filter_append, filter_isSink_lock, filter_isSink_unlock,
    List.append_nil, List.nil_append]
  split_ifs with h1 h2 h2 <;>
    simp_all [filter_isSink_map, TraceEntry.isSink, List.isEmpty_iff]

theorem mem_lock (L : LogState) (e : TraceEntry) (he : e ∈ lock L) :
    e = .lockCall true L.udata := by
  cases h : L.lock <;> simp [lock, h] at he <;> simp [he]

theorem mem_unlock (L : LogState) (e : TraceEntry) (he : e ∈ unlock L) :
    e = .lockCall false L.udata := by
  cases h : L.lock <;> simp [unlock, h] at he <;> simp [he]

theorem sink_mem_map (qs : List (Nat × LogFn × UData))
    (g : UData → log_Event) (i : Nat) (f : LogFn) (e : log_Event) :
    TraceEntry.sinkInvoke i f e ∈
        qs.map (fun q => TraceEntry.sinkInvoke q.1 q.2.1 (g q.2.2)) ↔
      ∃ ud, (i, f, ud) ∈ qs ∧ e = g ud := by
  constructor
  · intro h
    obtain ⟨⟨a, b, c⟩, hmem, heq⟩ := List.mem_map.mp h
    simp only [TraceEntry.sinkInvoke.injEq] at heq
    obtain ⟨rfl, rfl, h3⟩ := heq
    exact ⟨c, hmem, h3.symm⟩
  · rintro ⟨ud, hmem, rfl⟩
    exact List.mem_map.mpr ⟨(i, f, ud), hmem, rfl⟩

/-- The console sink fires in a dispatch call exactly when
`!L.quiet && level >= L.level`, and then observes the shared event bound
to `stderr`. -/
theorem console_mem_dispatchTrace (L : LogState) (level : log_level)
    (file : String) (line : Int) (fmt : String) (now : Nat)
    (e : log_Event) :
    TraceEntry.consoleInvoke e ∈ dispatchTrace L level file line fmt now ↔
      ((L.quiet = false ∧ L.level.toNat ≤ level.toNat) ∧
        e = sinkEvent (baseEvent level file line fmt) now .stderrp) := by
  unfold dispatchTrace dispatchBody
  cases hl : L.lock <;>
  · simp only [lock, unlock, hl]
    split_ifs with h1 h2 h2 <;>
      simp only [List.isEmpty_iff] at h2 <;>
      simp [h1, h2, List.mem_map]

/-- A registered callback invocation appears in a dispatch trace exactly
when its slot qualifies, and then its event is the shared event rebound
to the slot's context. -/
theorem sink_mem_dispatchTrace (L : LogState) (level : log_level)
    (file : String) (line : Int) (fmt : String) (now : Nat)
    (i : Nat) (f : LogFn) (e : log_Event) :
    TraceEntry.sinkInvoke i f e ∈ dispatchTrace L level file line fmt now ↔
      ∃ ud, (i, f, ud) ∈ qualifying MAX_CALLBACKS L.callbacks 0 level ∧
        e = sinkEvent (baseEvent level file line fmt) now ud := by
  unfold dispatchTrace dispatchBody
  cases hl : L.lock <;>
  · simp only [lock, unlock, hl]
    split_ifs with h1 h2 h2 <;>
      simp only [List.isEmpty_iff] at h2 <;>
      simp [h1, h2, sink_mem_map] <;>
      (constructor
       · rintro ⟨a, b, c, hm, rfl, rfl, hc⟩
         exact ⟨c, hm, hc.symm⟩
       · rintro ⟨ud, hm, rfl⟩
         exact ⟨i, f, ud, hm, rfl, rfl, rfl⟩)

/-- The clock is queried in a dispatch call exactly when the console
sink fires or some registered callback qualifies. -/
theorem clock_mem_dispatchTrace (L : LogState) (level : log_level)
    (file : String) (line : Int) (fmt : String) (now : Nat) :
    TraceEntry.clockQuery ∈ dispatchTrace L level file line fmt now ↔
      ((L.quiet = false ∧ L.level.toNat ≤ level.toNat) ∨
        qualifying MAX_CALLBACKS L.callbacks 0 level ≠ []) := by
  unfold dispatchTrace dispatchBody
  cases hl : L.lock <;>
  · simp only [lock, unlock, hl]
    split_ifs with h1 h2 h2 <;>
      simp only [List.isEmpty_iff] at h2 <;>
      simp [h1, h2, List.mem_map]

theorem countP_isClock_map (qs : List (Nat × LogFn × UData))
    (g : Nat × LogFn × UData → log_Event) :
    (qs.map (fun q => TraceEntry.sinkInvoke q.1 q.2.1 (g q))).countP
      TraceEntry.isClock = 0 := by
  refine List.countP_eq_zero.mpr ?_
  intro a ha
  obtain ⟨q, -, rfl⟩ := List.mem_map.mp ha
  simp [TraceEntry.isClock]

/-- One dispatch call queries the clock exactly once when any sink
fires. -/
theorem countP_isClock_fires (L : LogState) (level : log_level)
    (file : String) (line : Int) (fmt : String) (now : Nat)
    (h : (L.quiet = false ∧ L.level.toNat ≤ level.toNat) ∨
      qualifying MAX_CALLBACKS L.callbacks 0 level ≠ []) :
    (dispatchTrace L level file line fmt now).countP TraceEntry.isClock =
      1 := by
  unfold dispatchTrace dispatchBody
  cases hl : L.lock <;>
  · simp only [lock, unlock, hl]
    split_ifs with h1 h2 h2 <;>
      simp only [List.isEmpty_iff] at h2 <;>
      try simp [h1, h2, List.countP_append, List.countP_cons,
        countP_isClock_map, TraceEntry.isClock]
    all_goals exact ((h.resolve_left h1) h2).elim

/-- A fully filtered-out dispatch call never queries the clock. -/
theorem countP_isClock_silent (L : LogState) (level : log_level)
    (file : String) (line : Int) (fmt : String) (now : Nat)
    (h1 : ¬(L.quiet = false ∧ L.level.toNat ≤ level.toNat))
    (h2 : qualifying MAX_CALLBACKS L.callbacks 0 level = []) :
    (dispatchTrace L level file line fmt now).countP TraceEntry.isClock =
      0 := by
  unfold dispatchTrace dispatchBody
  cases hl : L.lock <;>
  · simp only [lock, unlock, hl]
    simp [h1, h2, List.countP_append, List.countP_cons,
      TraceEntry.isClock]

theorem any_isInvoke_dispatchTrace (L : LogState) (level : log_level)
    (file : String) (line : Int) (fmt : String) (now : Nat) :
    (dispatchTrace L level file line fmt now).any TraceEntry.isInvoke =
        true ↔
      ((L.quiet = false ∧ L.level.toNat ≤ level.toNat) ∨
        qualifying MAX_CALLBACKS L.callbacks 0 level ≠ []) := by
  rw [List.any_eq_true]
  constructor
  · rintro ⟨e, he, hinv⟩
    cases e with
    | lockCall b u => simp [TraceEntry.isInvoke] at hinv
    | clockQuery => simp [TraceEntry.isInvoke] at hinv
    | consoleInvoke ev =>
      exact Or.inl
        ((console_mem_dispatchTrace L level file line fmt now ev).mp he).1
    | sinkInvoke i f ev =>
      refine Or.inr ?_
      obtain ⟨ud, hmem, -⟩ :=
        (sink_mem_dispatchTrace L level file line fmt now i f ev).mp he
      intro hnil
      rw [hnil] at hmem
      simp at hmem
  · rintro (h | h)
    · exact ⟨_, (console_mem_dispatchTrace L level file line fmt now
        _).mpr ⟨h, rfl⟩, rfl⟩
    · obtain ⟨p, hp⟩ := List.exists_mem_of_ne_nil _ h
      exact ⟨.sinkInvoke p.1 p.2.1
          (sinkEvent (baseEvent level file line fmt) now p.2.2),
        (sink_mem_dispatchTrace L level file line fmt now p.1 p.2.1
          _).mpr ⟨p.2.2, by simpa using hp, rfl⟩, rfl⟩

theorem any_isSink_dispatchTrace (L : LogState) (level : log_level)
    (file : String) (line : Int) (fmt : String) (now : Nat) :
    (dispatchTrace L level file line fmt now).any TraceEntry.isSink =
        true ↔
      qualifying MAX_CALLBACKS L.callbacks 0 level ≠ [] := by
  rw [List.any_eq_true]
  constructor
  · rintro ⟨e, he, hs⟩
    cases e with
    | lockCall b u => simp [TraceEntry.isSink] at hs
    | clockQuery => simp [TraceEntry.isSink] at hs
    | consoleInvoke ev => simp [TraceEntry.isSink] at hs
    | sinkInvoke i f ev =>
      obtain ⟨ud, hmem, -⟩ :=
        (sink_mem_dispatchTrace L level file line fmt now i f ev).mp he
      intro hnil
      rw [hnil] at hmem
      simp at hmem
  · intro h
    obtain ⟨p, hp⟩ := List.exists_mem_of_ne_nil _ h
    exact ⟨.sinkInvoke p.1 p.2.1
        (sinkEvent (baseEvent level file line fmt) now p.2.2),
      (sink_mem_dispatchTrace L level file line fmt now p.1 p.2.1
        _).mpr ⟨p.2.2, by simpa using hp, rfl⟩, rfl⟩

theorem filter_isInvoke_lock (L : LogState) :
    (lock L).filter TraceEntry.isInvoke = [] := by
  cases h : L.lock <;> simp [lock, h, TraceEntry.isInvoke]

theorem filter_isInvoke_unlock (L : LogState) :
    (unlock L).filter TraceEntry.isInvoke = [] := by
  cases h : L.lock <;> simp [unlock, h, TraceEntry.isInvoke]

theorem filter_isInvoke_map (qs : List (Nat × LogFn × UData))
    (g : Nat × LogFn × UData → log_Event) :
    (qs.map (fun q => TraceEntry.sinkInvoke q.1 q.2.1 (g q))).filter
        TraceEntry.isInvoke =
      qs.map (fun q => TraceEntry.sinkInvoke q.1 q.2.1 (g q)) := by
  refine List.filter_eq_self.mpr ?_
  intro a ha
  obtain ⟨q, -, rfl⟩ := List.mem_map.mp ha
  rfl

/-- The sink invocations of one dispatch call, console and registered
alike, in execution order: the console sink first when it fires, then
the qualifying registered callbacks in slot order. -/
theorem filter_isInvoke_dispatchTrace (L : LogState) (level : log_level)
    (file : String) (line : Int) (fmt : String) (now : Nat) :
    (dispatchTrace L level file line fmt now).filter TraceEntry.isInvoke =
      (if L.quiet = false ∧ L.level.toNat ≤ level.toNat then
        [TraceEntry.consoleInvoke
          (sinkEvent (baseEvent level file line fmt) now .stderrp)]
      else []) ++
        (qualifying MAX_CALLBACKS L.callbacks 0 level).map
          (fun q => .sinkInvoke q.1 q.2.1
            (sinkEvent (baseEvent level file line fmt) now q.2.2)) := by
  unfold dispatchTrace dispatchBody
  simp only [List.filter_append, filter_isInvoke_lock,
    filter_isInvoke_unlock, List.append_nil, List.nil_append]
  split_ifs with h1 h2 h2 <;>
    simp_all [filter_isInvoke_map, TraceEntry.isInvoke, List.isEmpty_iff]

/-- Only the lock hook produces `lockCall` entries: the body of a
dispatch call between the two hook invocations never does. -/
theorem lockCall_not_mem_dispatchBody (L : LogState) (level : log_level)
    (file : String) (line : Int) (fmt : String) (now : Nat)
    (b : Bool) (u : UData) :
    TraceEntry.lockCall b u ∉ dispatchBody L level file line fmt now := by
  unfold dispatchBody
  split_ifs <;> simp [List.mem_append, List.mem_map]

/-! ### Registration -/

/-- The zero-initialized content of an unused registry slot. -/
def emptyCb : Callback := ⟨none, .nullp, .LOG_TRACE⟩

/-- The slot content `(Callback){ fn, udata, level }` stored for a
(non-`NULL`) registration request. -/
def toCallback (r : LogFn × UData × log_level) : Callback :=
  ⟨some r.1, r.2.1, r.2.2⟩

/-- A sequence of `log_add_callback` calls, returning the list of their
return codes and the final state. -/
def addSeq (L : LogState) : List (LogFn × UData × log_level) →
    List Int × LogState
  | [] => ([], L)
  | r :: rs =>
    let p := log_add_callback L (some r.1) r.2.1 r.2.2
    let q := addSeq p.2 rs
    (p.1 :: q.1, q.2)

theorem insertCallback_full (cbs : List Callback) (fuel : Nat)
    (newc : Callback) (h : ∀ c ∈ cbs, c.fn ≠ none) :
    insertCallback fuel cbs newc = none := by
  induction cbs generalizing fuel with
  | nil => cases fuel <;> rfl
  | cons c rest ih =>
    cases fuel with
    | zero => rfl
    | succ fuel =>
      have hc : ¬c.fn = none := h c (List.mem_cons_self c rest)
      simp only [insertCallback, if_neg hc,
        ih fuel fun d hd => h d (List.mem_cons_of_mem c hd)]
      rfl

theorem insertCallback_step (done : List Callback) (fuel : Nat)
    (u0 : UData) (l0 : log_level) (rest : List Callback) (newc : Callback)
    (hd : ∀ c ∈ done, c.fn ≠ none) (hlen : done.length < fuel) :
    insertCallback fuel (done ++ ⟨none, u0, l0⟩ :: rest) newc =
      some (done ++ newc :: rest) := by
  induction done generalizing fuel with
  | nil =>
    cases fuel with
    | zero => omega
    | succ fuel => simp [insertCallback]
  | cons d ds ih =>
    cases fuel with
    | zero => omega
    | succ fuel =>
      have hfn : ¬d.fn = none := hd d (List.mem_cons_self d ds)
      have hlen2 : ds.length < fuel := by
        simp only [List.length_cons] at hlen
        omega
      simp [insertCallback, if_neg hfn,
        ih fuel (fun c hc => hd c (List.mem_cons_of_mem d hc)) hlen2]

theorem log_add_callback_full (L : LogState)
    (h : ∀ c ∈ L.callbacks, c.fn ≠ none) (fn : Option LogFn)
    (udata : UData) (level : log_level) :
    log_add_callback L fn udata level = (-1, L) := by
  simp [log_add_callback, insertCallback_full L.callbacks MAX_CALLBACKS _ h]

theorem addSeq_append (L : LogState)
    (xs ys : List (LogFn × UData × log_level)) :
    addSeq L (xs ++ ys) =
      ((addSeq L xs).1 ++ (addSeq (addSeq L xs).2 ys).1,
        (addSeq (addSeq L xs).2 ys).2) := by
  induction xs generalizing L with
  | nil => simp [addSeq]
  | cons x xs ih => simp [addSeq, ih]

/-- Registering `regs.length ≤ m` callbacks into a registry whose slots
are a block of occupied ones followed by `m` empty ones succeeds for
each request and appends the new callbacks in request order. -/
theorem addSeq_fills (regs : List (LogFn × UData × log_level))
    (done : List Callback) (m : Nat) (L : LogState)
    (hd : ∀ c ∈ done, c.fn ≠ none)
    (hlen : done.length + m = MAX_CALLBACKS)
    (hm : regs.length ≤ m)
    (hcb : L.callbacks = done ++ List.replicate m emptyCb) :
    addSeq L regs =
      (List.replicate regs.length 0,
        { L with callbacks := done ++ regs.map toCallback ++
            List.replicate (m - regs.length) emptyCb }) := by
  induction regs generalizing done m L with
  | nil =>
    simp only [addSeq, List.length_nil, List.replicate_zero, List.map_nil,
      List.append_nil, Nat.sub_zero, List.nil_append]
    rw [← hcb]
  | cons r rs ih =>
    cases m with
    | zero => simp at hm
    | succ m =>
      have hstep : insertCallback MAX_CALLBACKS L.callbacks
          (toCallback r) = some (done ++ toCallback r :: List.replicate m emptyCb) := by
        rw [hcb, List.replicate_succ]
        exact insertCallback_step done MAX_CALLBACKS _ _ _ _ hd (by omega)
      have hadd : log_add_callback L (some r.1) r.2.1 r.2.2 =
          (0, { L with callbacks := done ++ toCallback r ::
            List.replicate m emptyCb }) := by
        simp [log_add_callback, toCallback] at hstep ⊢
        rw [hstep]
      have ihr := ih (done ++ [toCallback r]) m
        { L with callbacks := done ++ toCallback r :: List.replicate m emptyCb }
        (by
          intro c hc
          rcases List.mem_append.mp hc with hc | hc
          · exact hd c hc
          · simp only [List.mem_singleton] at hc
            subst hc
            simp [toCallback])
        (by simpa using by omega)
        (by simpa using hm)
        (by simp)
      simp only [addSeq, hadd, ihr]
      refine Prod.ext ?_ ?_
      · simp [List.replicate_succ]
      · simp [List.append_assoc]

/-! ### The claims -/

/-- A registry whose global level is `LOG_ERROR` but which holds one
registered callback with per-slot level `LOG_TRACE`. -/
def exL1 : LogState :=
  { udata := .nullp, lock := none, level := .LOG_ERROR, quiet := false,
    callbacks := ⟨some (.userfn 0), .userp 0, .LOG_TRACE⟩ ::
      List.replicate 31 emptyCb }

/-- C1, counterexample: a dispatch at `LOG_INFO`, strictly below the
global level `LOG_ERROR`, still invokes the registered callback (whose
own level is `LOG_TRACE`) and still queries the system clock, because
`log_log` checks `L.level` only for the console sink, never in the
registered-callback loop. -/
theorem C1_counterexample :
    log_level.LOG_INFO.toNat < exL1.level.toNat ∧
    TraceEntry.clockQuery ∈ (log_log exL1 .LOG_INFO "a.c" 1 "m" 7).1 ∧
    (log_log exL1 .LOG_INFO "a.c" 1 "m" 7).1.any TraceEntry.isSink =
      true := by
  decide

/-- C1, amended: a dispatch with severity strictly below
`globalMinLevel` never invokes the default console sink (whatever the
quiet flag), but registered sinks are gated only by their own per-sink
minimum levels — changing the global level does not change which
registered sinks fire — and the system clock is queried exactly when at
least one registered sink fires. -/
theorem C1_amended (L : LogState) (level : log_level) (file : String)
    (line : Int) (fmt : String) (now : Nat)
    (h : level.toNat < L.level.toNat) :
    (∀ e, TraceEntry.consoleInvoke e ∉
      (log_log L level file line fmt now).1) ∧
    (TraceEntry.clockQuery ∈ (log_log L level file line fmt now).1 ↔
      (log_log L level file line fmt now).1.any TraceEntry.isSink =
        true) ∧
    (∀ lv2 : log_level,
      (log_log (log_set_level L lv2) level file line fmt now).1.filter
          TraceEntry.isSink =
        (log_log L level file line fmt now).1.filter
          TraceEntry.isSink) := by
  rw [log_log_eq]
  have hno : ¬(L.quiet = false ∧ L.level.toNat ≤ level.toNat) := by
    rintro ⟨-, hle⟩
    omega
  refine ⟨?_, ?_, ?_⟩
  · intro e he
    exact hno ((console_mem_dispatchTrace L level file line fmt now
      e).mp he).1
  · rw [clock_mem_dispatchTrace, any_isSink_dispatchTrace]
    exact or_iff_right hno
  · intro lv2
    rw [log_log_eq]
    simp [filter_isSink_dispatchTrace, log_set_level]

/-- C1, witness: the amended theorem applied at the counterexample
state with a concrete dispatch. -/
theorem C1_witness :
    TraceEntry.consoleInvoke
        (sinkEvent (baseEvent .LOG_INFO "a.c" 1 "m") 7 .stderrp) ∉
      (log_log exL1 .LOG_INFO "a.c" 1 "m" 7).1 :=
  (C1_amended exL1 .LOG_INFO "a.c" 1 "m" 7 (by decide)).1 _

/-- C2: with the quiet flag set, a dispatch call never invokes the
default console sink, while the registered-callback invocations
(callbacks, events and order alike) are exactly what they would be with
the quiet flag cleared. -/
theorem C2_quiet_console_only (L : LogState) (level : log_level)
    (file : String) (line : Int) (fmt : String) (now : Nat)
    (hq : L.quiet = true) :
    (∀ e, TraceEntry.consoleInvoke e ∉
      (log_log L level file line fmt now).1) ∧
    ((log_log L level file line fmt now).1.filter TraceEntry.isSink =
      (log_log (log_set_quiet L false) level file line fmt
        now).1.filter TraceEntry.isSink) := by
  rw [log_log_eq, log_log_eq]
  refine ⟨?_, ?_⟩
  · intro e he
    have hfalse := ((console_mem_dispatchTrace L level file line fmt now
      e).mp he).1.1
    rw [hq] at hfalse
    cases hfalse
  · simp [filter_isSink_dispatchTrace, log_set_quiet]

/-- A quiet registry with one registered callback at level `LOG_WARN`. -/
def exL2 : LogState :=
  { udata := .nullp, lock := none, level := .LOG_TRACE, quiet := true,
    callbacks := ⟨some (.userfn 1), .userp 1, .LOG_WARN⟩ ::
      List.replicate 31 emptyCb }

/-- C2, witness: quiet suppression at a concrete quiet registry. -/
theorem C2_witness :
    (log_log exL2 .LOG_ERROR "a.c" 2 "m" 5).1.filter TraceEntry.isSink =
      (log_log (log_set_quiet exL2 false) .LOG_ERROR "a.c" 2 "m"
        5).1.filter TraceEntry.isSink :=
  (C2_quiet_console_only exL2 .LOG_ERROR "a.c" 2 "m" 5 rfl).2

/-- C3: one dispatch call queries the wall clock exactly once when some
sink (console or registered) runs and not at all otherwise, and every
sink invoked during the call observes the identical captured timestamp
`now`. -/
theorem C3_timestamp_once (L : LogState) (level : log_level)
    (file : String) (line : Int) (fmt : String) (now : Nat) :
    ((log_log L level file line fmt now).1.countP TraceEntry.isClock =
      if (log_log L level file line fmt now).1.any TraceEntry.isInvoke
      then 1 else 0) ∧
    (∀ e, TraceEntry.consoleInvoke e ∈
      (log_log L level file line fmt now).1 → e.time = some now) ∧
    (∀ i f e, TraceEntry.sinkInvoke i f e ∈
      (log_log L level file line fmt now).1 → e.time = some now) := by
  rw [log_log_eq]
  refine ⟨?_, ?_, ?_⟩
  · by_cases hc : (L.quiet = false ∧ L.level.toNat ≤ level.toNat) ∨
        qualifying MAX_CALLBACKS L.callbacks 0 level ≠ []
    · rw [countP_isClock_fires L level file line fmt now hc,
        if_pos ((any_isInvoke_dispatchTrace L level file line fmt
          now).mpr hc)]
    · have hA : ¬(L.quiet = false ∧ L.level.toNat ≤ level.toNat) :=
        fun h2 => hc (Or.inl h2)
      have hB : qualifying MAX_CALLBACKS L.callbacks 0 level = [] := by
        by_contra h2
        exact hc (Or.inr h2)
      rw [countP_isClock_silent L level file line fmt now hA hB, if_neg]
      intro hany
      exact hc
        ((any_isInvoke_dispatchTrace L level file line fmt now).mp hany)
  · intro e he
    obtain ⟨-, rfl⟩ :=
      (console_mem_dispatchTrace L level file line fmt now e).mp he
    simp [sinkEvent, baseEvent]
  · intro i f e he
    obtain ⟨ud, -, rfl⟩ :=
      (sink_mem_dispatchTrace L level file line fmt now i f e).mp he
    simp [sinkEvent, baseEvent]

/-- C3, witness: at a concrete registry and dispatch, the invoked
callback observes the captured clock value. -/
theorem C3_witness :
    (sinkEvent (baseEvent .LOG_ERROR "a.c" 2 "m") 5 (.userp 1)).time =
      some 5 :=
  (C3_timestamp_once exL2 .LOG_ERROR "a.c" 2 "m" 5).2.2 0 (.userfn 1) _
    (by decide)

/-- C4: starting from the empty registry, each of the first
`MAX_CALLBACKS` (= 32) registrations returns 0 and appends its
callback in request order; the 33rd registration returns -1 and leaves
the registry exactly as it was after the first 32. -/
theorem C4_capacity (regs : List (LogFn × UData × log_level))
    (h : regs.length = MAX_CALLBACKS + 1) :
    (addSeq log_init regs).1 =
      List.replicate MAX_CALLBACKS 0 ++ [-1] ∧
    (addSeq log_init regs).2 =
      (addSeq log_init (regs.take MAX_CALLBACKS)).2 ∧
    (addSeq log_init (regs.take MAX_CALLBACKS)).2.callbacks =
      (regs.take MAX_CALLBACKS).map toCallback := by
  have hxslen : (regs.take MAX_CALLBACKS).length = MAX_CALLBACKS := by
    simp [List.length_take, h]
  have hyslen : (regs.drop MAX_CALLBACKS).length = 1 := by
    simp [List.length_drop, h]
  obtain ⟨r, hr⟩ := List.length_eq_one.mp hyslen
  have hsplit : regs = regs.take MAX_CALLBACKS ++ [r] := by
    rw [← hr]
    exact (List.take_append_drop MAX_CALLBACKS regs).symm
  have hfill := addSeq_fills (regs.take MAX_CALLBACKS) [] MAX_CALLBACKS
    log_init (by simp) (by simp) (le_of_eq hxslen) (by rfl)
  have hfull : (addSeq log_init (regs.take MAX_CALLBACKS)).2.callbacks =
      (regs.take MAX_CALLBACKS).map toCallback := by
    rw [hfill, hxslen]
    simp
  have hnonnull : ∀ c ∈ (addSeq log_init
      (regs.take MAX_CALLBACKS)).2.callbacks, c.fn ≠ none := by
    rw [hfull]
    intro c hc
    obtain ⟨q, -, rfl⟩ := List.mem_map.mp hc
    simp [toCallback]
  have hlast := log_add_callback_full
    (addSeq log_init (regs.take MAX_CALLBACKS)).2 hnonnull
    (some r.1) r.2.1 r.2.2
  have hres1 : (addSeq log_init (regs.take MAX_CALLBACKS)).1 =
      List.replicate MAX_CALLBACKS 0 := by
    rw [hfill, hxslen]
  have hres2 : addSeq (addSeq log_init (regs.take MAX_CALLBACKS)).2 [r] =
      ([-1], (addSeq log_init (regs.take MAX_CALLBACKS)).2) := by
    simp [addSeq, hlast]
  refine ⟨?_, ?_, hfull⟩
  · rw [hsplit, addSeq_append, hres2, hres1]
  · conv in addSeq log_init regs => rw [hsplit]
    rw [addSeq_append, hres2]

/-- A block of 33 identical non-`NULL` registration requests. -/
def regsC : List (LogFn × UData × log_level) :=
  List.replicate (MAX_CALLBACKS + 1) (.userfn 0, .userp 0, .LOG_TRACE)

/-- C4, witness: the first 32 of 33 concrete registrations return 0,
the last returns -1. -/
theorem C4_witness :
    (addSeq log_init regsC).1 =
      List.replicate MAX_CALLBACKS 0 ++ [-1] :=
  (C4_capacity regsC (by simp [regsC])).1

/-- C5: a registered callback with per-slot level `L2` (in a reachable
slot, i.e. not preceded by a `NULL` slot) is never invoked by a
dispatch at a strictly lower severity `L1`, and is invoked by every
dispatch at severity `L2` or higher. -/
theorem C5_threshold_monotone (L : LogState) (L1 L2 : log_level)
    (i : Nat) (c : Callback) (f : LogFn) (file : String) (line : Int)
    (fmt : String) (now : Nat)
    (hget : L.callbacks[i]? = some c) (hfn : c.fn = some f)
    (hlev : c.level = L2) (hi : i < MAX_CALLBACKS)
    (hreach : ∀ j < i, ∃ cj, L.callbacks[j]? = some cj ∧ cj.fn ≠ none)
    (h12 : L1.toNat < L2.toNat) :
    (∀ e, TraceEntry.sinkInvoke i f e ∉
      (log_log L L1 file line fmt now).1) ∧
    (∀ lv : log_level, L2.toNat ≤ lv.toNat →
      TraceEntry.sinkInvoke i f
          (sinkEvent (baseEvent lv file line fmt) now c.udata) ∈
        (log_log L lv file line fmt now).1) := by
  refine ⟨?_, ?_⟩
  · intro e he
    rw [log_log_eq] at he
    obtain ⟨ud, hmem, -⟩ :=
      (sink_mem_dispatchTrace L L1 file line fmt now i f e).mp he
    obtain ⟨j, c2, hj1, -, hj3, -, -, hj6⟩ :=
      mem_qualifying_sound L.callbacks MAX_CALLBACKS 0 L1 (i, f, ud) hmem
    have hji : j = i := by
      simp only at hj1
      omega
    subst hji
    rw [hget] at hj3
    injection hj3 with hc2
    subst hc2
    rw [hlev] at hj6
    omega
  · intro lv hlv
    rw [log_log_eq]
    refine (sink_mem_dispatchTrace L lv file line fmt now i f _).mpr
      ⟨c.udata, ?_, rfl⟩
    have := mem_qualifying_complete L.callbacks MAX_CALLBACKS 0 i lv c f
      hget hfn (by rw [hlev]; exact hlv) hi hreach
    simpa using this

/-- A registry with one registered callback at level `LOG_WARN` in
slot 0. -/
def exL5 : LogState :=
  { udata := .nullp, lock := none, level := .LOG_TRACE, quiet := false,
    callbacks := ⟨some (.userfn 2), .userp 2, .LOG_WARN⟩ ::
      List.replicate 31 emptyCb }

/-- C5, witness: the `LOG_WARN` callback fires for a concrete dispatch
at `LOG_ERROR`. -/
theorem C5_witness :
    TraceEntry.sinkInvoke 0 (.userfn 2)
        (sinkEvent (baseEvent .LOG_ERROR "a.c" 3 "m") 9 (.userp 2)) ∈
      (log_log exL5 .LOG_ERROR "a.c" 3 "m" 9).1 :=
  (C5_threshold_monotone exL5 .LOG_INFO .LOG_WARN 0
      ⟨some (.userfn 2), .userp 2, .LOG_WARN⟩ (.userfn 2) "a.c" 3 "m" 9
      (by decide) rfl rfl (by decide)
      (fun j hj => absurd hj (Nat.not_lt_zero j)) (by decide)).2
    .LOG_ERROR (by decide)

/-- C6: during one dispatch call the sink invocations are, in order:
the console sink when it fires, then the qualifying registered
callbacks exactly in slot (= registration) order, each exactly once
(their slot indices are strictly increasing); and the registry is left
unchanged, so no registration is reordered or removed. -/
theorem C6_insertion_order (L : LogState) (level : log_level)
    (file : String) (line : Int) (fmt : String) (now : Nat) :
    ((log_log L level file line fmt now).1.filter TraceEntry.isInvoke =
      (if L.quiet = false ∧ L.level.toNat ≤ level.toNat then
        [TraceEntry.consoleInvoke
          (sinkEvent (baseEvent level file line fmt) now .stderrp)]
      else []) ++
        (qualifying MAX_CALLBACKS L.callbacks 0 level).map
          (fun q => .sinkInvoke q.1 q.2.1
            (sinkEvent (baseEvent level file line fmt) now q.2.2))) ∧
    List.Pairwise (fun a b => a.1 < b.1)
      (qualifying MAX_CALLBACKS L.callbacks 0 level) ∧
    (log_log L level file line fmt now).2 = L := by
  refine ⟨?_, qualifying_pairwise L.callbacks MAX_CALLBACKS 0 level, rfl⟩
  rw [log_log_eq]
  exact filter_isInvoke_dispatchTrace L level file line fmt now

/-- C7: when a lock hook is installed, every dispatch call invokes it
exactly once with `true` first and exactly once with `false` last, with
no hook invocation in between; with no hook installed, a dispatch call
never invokes any hook. -/
theorem C7_lock_bracketing (L : LogState) (level : log_level)
    (file : String) (line : Int) (fmt : String) (now : Nat) :
    (L.lock = none → ∀ b u, TraceEntry.lockCall b u ∉
      (log_log L level file line fmt now).1) ∧
    (∀ lk, L.lock = some lk →
      (log_log L level file line fmt now).1 =
        TraceEntry.lockCall true L.udata ::
          (dispatchBody L level file line fmt now ++
            [TraceEntry.lockCall false L.udata]) ∧
      ∀ b u, TraceEntry.lockCall b u ∉
        dispatchBody L level file line fmt now) := by
  rw [log_log_eq]
  refine ⟨?_, ?_⟩
  · intro hl b u hmem
    unfold dispatchTrace at hmem
    rw [lock, unlock, hl] at hmem
    simp only [List.append_nil, List.nil_append] at hmem
    exact lockCall_not_mem_dispatchBody L level file line fmt now b u hmem
  · intro lk hl
    refine ⟨?_, lockCall_not_mem_dispatchBody L level file line fmt now⟩
    unfold dispatchTrace
    rw [lock, unlock, hl]
    simp

/-- A registry with a lock hook installed. -/
def exL7 : LogState :=
  { udata := .userp 7, lock := some 3, level := .LOG_TRACE,
    quiet := true, callbacks := List.replicate 32 emptyCb }

/-- C7, witness: with a hook installed, a concrete dispatch trace
starts with the acquire call. -/
theorem C7_witness :
    (log_log exL7 .LOG_INFO "a.c" 4 "m" 1).1.head? =
      some (TraceEntry.lockCall true (.userp 7)) := by
  obtain ⟨hmid, -⟩ :=
    (C7_lock_bracketing exL7 .LOG_INFO "a.c" 4 "m" 1).2 3 rfl
  rw [hmid]
  rfl

/-- C8: `log_add_fp` returns the same result and produces the same
registry state as `log_add_callback` applied to the built-in
`file_callback` with the file handle as context, and in particular
fails with the same -1 value on a full registry. -/
theorem C8_add_fp_composition (L : LogState) (fp : Nat)
    (level : log_level) :
    log_add_fp L fp level =
      log_add_callback L (some .file_callback) (.filep fp) level ∧
    ((∀ c ∈ L.callbacks, c.fn ≠ none) →
      log_add_fp L fp level = (-1, L)) := by
  refine ⟨rfl, fun h => ?_⟩
  simpa [log_add_fp] using
    log_add_callback_full L h (some .file_callback) (.filep fp) level

/-- A completely full registry. -/
def exL8 : LogState :=
  { udata := .nullp, lock := none, level := .LOG_TRACE, quiet := false,
    callbacks :=
      List.replicate 32 ⟨some (.userfn 9), .nullp, .LOG_TRACE⟩ }

/-- C8, witness: on a concrete full registry, `log_add_fp` fails with
-1 and changes nothing. -/
theorem C8_witness : log_add_fp exL8 5 .LOG_INFO = (-1, exL8) :=
  (C8_add_fp_composition exL8 5 .LOG_INFO).2 (by decide)

/-- C9: `log_level_string` is a total function on the six levels,
returning for each its fixed name from `level_strings`, and the six
names are pairwise distinct.  (Being a plain function of the level
alone, it reads no registry state and has no side effects.) -/
theorem C9_level_string_pure :
    log_level_string .LOG_TRACE = "TRACE" ∧
    log_level_string .LOG_DEBUG = "DEBUG" ∧
    log_level_string .LOG_INFO = "INFO" ∧
    log_level_string .LOG_WARN = "WARN" ∧
    log_level_string .LOG_ERROR = "ERROR" ∧
    log_level_string .LOG_FATAL = "FATAL" ∧
    List.Pairwise (fun a b => a ≠ b)
      ([log_level.LOG_TRACE, .LOG_DEBUG, .LOG_INFO, .LOG_WARN,
        .LOG_ERROR, .LOG_FATAL].map log_level_string) := by
  decide

/-- C10: one dispatch call never mutates the registry: the state
`log_log` returns is the state it was given — same global level, quiet
flag, lock hook, lock context and callback slots. -/
theorem C10_registry_frame (L : LogState) (level : log_level)
    (file : String) (line : Int) (fmt : String) (now : Nat) :
    (log_log L level file line fmt now).2 = L ∧
    (log_log L level file line fmt now).2.level = L.level ∧
    (log_log L level file line fmt now).2.quiet = L.quiet ∧
    (log_log L level file line fmt now).2.lock = L.lock ∧
    (log_log L level file line fmt now).2.udata = L.udata ∧
    (log_log L level file line fmt now).2.callbacks = L.callbacks :=
  ⟨rfl, rfl, rfl, rfl, rfl, rfl⟩

end LogC
